import Mathlib

/-!
Verification of the Chakra scheduler (`chakra/policies.py`, `chakra/scheduler.py`)
against its natural-language specification.  The Python code is shallowly
embedded: Python dicts become association lists (iteration order = list order,
as Python dicts preserve insertion order), resource quantities become rationals,
and raised exceptions become explicit error values.
-/

namespace Chakra

/-- First-match lookup in an association list: Python `dict.get(k)`
(`None` when the key is absent). -/
def dictGet {α : Type} : List (String × α) → String → Option α
  | [], _ => none
  | (k', v) :: rest, k => if k' = k then some v else dictGet rest k

/-- Python `dict.get(k, d)`: lookup with a default. -/
def dictGetD (m : List (String × ℚ)) (k : String) (d : ℚ) : ℚ :=
  (dictGet m k).getD d

/-- ASCII decimal-digit test (the `\d` character class on the inputs of
interest). -/
def isDigitChar (c : Char) : Bool :=
  decide (48 ≤ c.toNat) && decide (c.toNat ≤ 57)

/-- Numeric value of a run of decimal digit characters. -/
def digitsVal (l : List Char) : ℕ :=
  l.foldl (fun acc c => 10 * acc + (c.toNat - 48)) 0

/-- Python `re.search(r'\d+', s)`: the first maximal run of decimal digits
in the character list, or `none` when the string has no digit
(in which case `.group()` on the `None` match raises). -/
def findDigitRun : List Char → Option (List Char)
  | [] => none
  | c :: rest =>
    if isDigitChar c then some (c :: rest.takeWhile isDigitChar)
    else findDigitRun rest

/-- `ClusterStateUpdater.parse_resource_cpu` (scheduler.py lines 50-56):
take the first digit run as the value, everything after position
`len(value)` as the unit, and scale by `{'m': 1e-3, 'K': 1e3}` with
default multiplier 1.  `none` models the `AttributeError` raised when the
string contains no digits. -/
def parse_resource_cpu (resource_str : String) : Option ℚ :=
  match findDigitRun resource_str.data with
  | none => none
  | some run =>
    let unit : List Char := resource_str.data.drop run.length
    let mult : ℚ := if unit = ['m'] then 1/1000 else if unit = ['K'] then 1000 else 1
    some (digitsVal run * mult)

/-- `ClusterStateUpdater.parse_resource_memory` (scheduler.py lines 58-65):
same digit-run extraction, unit map `{'Ki': 2^10, 'Mi': 2^20, 'Gi': 2^30,
'Ti': 2^40}` with default 1, and a final division by `2^20` to convert to
megabytes. -/
def parse_resource_memory (resource_str : String) : Option ℚ :=
  match findDigitRun resource_str.data with
  | none => none
  | some run =>
    let unit : List Char := resource_str.data.drop run.length
    let mult : ℚ :=
      if unit = ['K', 'i'] then 2 ^ 10
      else if unit = ['M', 'i'] then 2 ^ 20
      else if unit = ['G', 'i'] then 2 ^ 30
      else if unit = ['T', 'i'] then 2 ^ 40
      else 1
    some (digitsVal run * mult / 2 ^ 20)

theorem findDigitRun_eq_none (l : List Char) (h : ∀ c ∈ l, isDigitChar c = false) :
    findDigitRun l = none := by
  induction l with
  | nil => rfl
  | cons c rest ih =>
    have hc : isDigitChar c = false := h c (List.mem_cons_self c rest)
    simp only [findDigitRun, hc, Bool.false_eq_true, if_false]
    exact ih fun c' hc' => h c' (List.mem_cons_of_mem c hc')

/-- C2: the resource-quantity parsers return the spec's normalized values on
its examples — `parse_resource_cpu "500m" = 0.5`, `parse_resource_cpu "2" = 2`,
`parse_resource_memory "128Mi" = 128`, `parse_resource_memory "1Gi" = 1024` —
and on any string containing no decimal digit both parsers fail
(return `none`, modelling the raised error) rather than return a value. -/
theorem c2_resource_parsers :
    parse_resource_cpu "500m" = some (1/2) ∧
    parse_resource_cpu "2" = some 2 ∧
    parse_resource_memory "128Mi" = some 128 ∧
    parse_resource_memory "1Gi" = some 1024 ∧
    (∀ s : String, (∀ c ∈ s.data, isDigitChar c = false) →
      parse_resource_cpu s = none ∧ parse_resource_memory s = none) := by
  refine ⟨?_, ?_, ?_, ?_, fun s h => ?_⟩
  · have hr : findDigitRun "500m".data = some ['5', '0', '0'] := by decide
    have hv : digitsVal ['5', '0', '0'] = 500 := by decide
    rw [parse_resource_cpu, hr]; norm_num [hv]
  · have hr : findDigitRun "2".data = some ['2'] := by decide
    have hv : digitsVal ['2'] = 2 := by decide
    rw [parse_resource_cpu, hr]; norm_num [hv]
  · have hr : findDigitRun "128Mi".data = some ['1', '2', '8'] := by decide
    have hv : digitsVal ['1', '2', '8'] = 128 := by decide
    rw [parse_resource_memory, hr]; norm_num [hv]
    rw [if_neg (by decide : ¬('M' : Char) = 'K')]; norm_num
  · have hr : findDigitRun "1Gi".data = some ['1'] := by decide
    have hv : digitsVal ['1'] = 1 := by decide
    rw [parse_resource_memory, hr]; norm_num [hv]
    rw [if_neg (by decide : ¬('G' : Char) = 'K'), if_neg (by decide : ¬('G' : Char) = 'M')]
    norm_num
  have hrun : findDigitRun s.data = none := findDigitRun_eq_none s.data h
  constructor
  · simp [parse_resource_cpu, hrun]
  · simp [parse_resource_memory, hrun]

/-- Witness for C2 at the digit-free string `"abc"`. -/
theorem c2_resource_parsers_witness :
    (∀ c ∈ "abc".data, isDigitChar c = false) ∧
    parse_resource_cpu "abc" = none ∧ parse_resource_memory "abc" = none := by
  have h : ∀ c ∈ "abc".data, isDigitChar c = false := by decide
  exact ⟨h, (c2_resource_parsers.2.2.2.2 "abc" h).1, (c2_resource_parsers.2.2.2.2 "abc" h).2⟩

/-! ## BestfitBinpackPolicy (policies.py) -/

/-- Outcome of `BestfitBinpackPolicy.get_allocation`.  The non-`ok`
constructors model the distinct ways the Python method terminates
abnormally: the two explicit `raise Exception(...)` sites, the `TypeError`
from `None - float` when a feasible node's resource map lacks the
binpacking dimension, and the `NameError` when `pod_resource_req` is never
assigned because the requests map is empty/absent. -/
inductive PolicyResult where
  | ok (node : String)
  | missingCpuRequest
  | noNodeFits
  | typeError
  | nameError
deriving DecidableEq, Repr

/-- The feasibility check of policies.py lines 92-93: for every resource
key the pod requests, `resources.get(r, 0) >= requests.get(r, 0)`. -/
def feasible (resources requests : List (String × ℚ)) : Bool :=
  requests.all fun kv => decide (dictGetD requests kv.1 0 ≤ dictGetD resources kv.1 0)

/-- The update condition of policies.py line 95:
`remaining >= 0 and (best is None or remaining < best_remaining)`. -/
def betterFit (remaining : ℚ) (best : Option (String × ℚ)) : Bool :=
  decide (0 ≤ remaining) &&
    (match best with
     | none => true
     | some b => decide (remaining < b.2))

/-- The node loop of policies.py lines 88-97, carrying
`(best_fit_node, best_fit_node_remaining)` as an optional pair.
`Except.error ()` models the `TypeError` raised by
`resources.get(binpacking_resource) - pod_resource_req` when the node's
map lacks the binpacking key (`None - float`). -/
def findBestFit (requests : List (String × ℚ)) (bd : String) (req : ℚ) :
    Option (String × ℚ) → List (String × List (String × ℚ)) →
      Except Unit (Option (String × ℚ))
  | best, [] => .ok best
  | best, (node, resources) :: rest =>
    if feasible resources requests then
      match dictGet resources bd with
      | none => .error ()
      | some avail =>
        let remaining := avail - req
        if betterFit remaining best then
          findBestFit requests bd req (some (node, remaining)) rest
        else
          findBestFit requests bd req best rest
    else
      findBestFit requests bd req best rest

/-- Loop plus final dispatch (policies.py lines 87-102): `None` best node
raises the no-fit exception, otherwise the best node's name is returned. -/
def runCore (requests : List (String × ℚ)) (bd : String) (req : ℚ)
    (cluster_state : List (String × List (String × ℚ))) : PolicyResult :=
  match findBestFit requests bd req none cluster_state with
  | .error _ => .typeError
  | .ok none => .noNodeFits
  | .ok (some (node, _)) => .ok node

/-- `BestfitBinpackPolicy.get_allocation` (policies.py lines 59-102).
`binpacking_resource` is the value stored on the policy object at
construction; the pod is represented by its first container's requests
map.  Empty requests model the falsy check on line 72, after which line 76
reads the unbound local `pod_resource_req` (`NameError`). -/
def get_allocation (binpacking_resource : String)
    (cluster_state : List (String × List (String × ℚ)))
    (requests : List (String × ℚ)) : PolicyResult :=
  if requests = [] then .nameError
  else
    match dictGet requests binpacking_resource with
    | some pod_resource_req => runCore requests binpacking_resource pod_resource_req cluster_state
    | none =>
      match dictGet requests "cpu" with
      | none => .missingCpuRequest
      | some pod_resource_req => runCore requests "cpu" pod_resource_req cluster_state

/-- The dimension actually used for the decision (policies.py lines 70-83):
the configured one, or `cpu` after the fallback. -/
def effectiveDim (bd : String) (requests : List (String × ℚ)) : String :=
  match dictGet requests bd with
  | some _ => bd
  | none => "cpu"

/-- The pod's requested quantity on the effective dimension
(policies.py lines 72-79). -/
def effectiveReq (bd : String) (requests : List (String × ℚ)) : Option ℚ :=
  match dictGet requests bd with
  | some r => some r
  | none => dictGet requests "cpu"

/-- Propositional form of the feasibility invariant: on every dimension
the pod explicitly requests, the node's available quantity is at least
the requested quantity. -/
def Feasible (resources requests : List (String × ℚ)) : Prop :=
  ∀ kv ∈ requests, dictGetD requests kv.1 0 ≤ dictGetD resources kv.1 0

theorem feasible_iff (resources requests : List (String × ℚ)) :
    feasible resources requests = true ↔ Feasible resources requests := by
  simp [feasible, Feasible, List.all_eq_true]

/-- Remaining capacity on dimension `bd` after hypothetically placing the
pod: `available - requested`. -/
def remOn (bd : String) (req : ℚ) (resources : List (String × ℚ)) : ℚ :=
  dictGetD resources bd 0 - req

/-- `BestfitBinpackPolicy.__init__` (policies.py lines 48-57): the
accepted binpacking dimensions are exactly `cpu`, `memory` and
`nvidia.com/gpu`; anything else raises at construction time. -/
def bestfitInit (binpacking_resource : String) : Except String String :=
  if binpacking_resource ∈ (["cpu", "memory", "nvidia.com/gpu"] : List String) then
    .ok binpacking_resource
  else
    .error "Invalid binpacking resource. Must be one of cpu, memory, or nvidia.com/gpu"

/-- Whether construction of `BestfitBinpackPolicy` succeeds. -/
def initSucceeds (binpacking_resource : String) : Bool :=
  match bestfitInit binpacking_resource with
  | .ok _ => true
  | .error _ => false

/-- C3: when the pod's non-empty requests map lacks the configured
binpacking dimension, the decision is evaluated exactly as if the
configured dimension were `cpu` for this call (the configured value,
passed as an argument, is not reassigned), and when the CPU request is
also absent the call fails with the missing-CPU-request condition. -/
theorem c3_cpu_fallback (bd : String) (cs : List (String × List (String × ℚ)))
    (requests : List (String × ℚ)) (hne : requests ≠ [])
    (habs : dictGet requests bd = none) :
    get_allocation bd cs requests = get_allocation "cpu" cs requests ∧
    (dictGet requests "cpu" = none → get_allocation bd cs requests = .missingCpuRequest) := by
  constructor
  · unfold get_allocation
    rw [if_neg hne, if_neg hne, habs]
    cases hcpu : dictGet requests "cpu" <;> simp [hcpu]
  · intro hcpu
    unfold get_allocation
    rw [if_neg hne, habs, hcpu]

/-- Witness for C3: a policy configured for `nvidia.com/gpu` with a pod
requesting only CPU. -/
theorem c3_cpu_fallback_witness :
    (([("cpu", (2 : ℚ))] : List (String × ℚ)) ≠ []) ∧
    dictGet [("cpu", (2 : ℚ))] "nvidia.com/gpu" = none ∧
    (get_allocation "nvidia.com/gpu" [("node1", [("cpu", 3)])] [("cpu", 2)] =
      get_allocation "cpu" [("node1", [("cpu", 3)])] [("cpu", 2)] ∧
     (dictGet [("cpu", (2 : ℚ))] "cpu" = none →
      get_allocation "nvidia.com/gpu" [("node1", [("cpu", 3)])] [("cpu", 2)] = .missingCpuRequest)) := by
  refine ⟨by simp, by simp [dictGet], ?_⟩
  exact c3_cpu_fallback "nvidia.com/gpu" [("node1", [("cpu", 3)])] [("cpu", 2)]
    (by simp) (by simp [dictGet])

/-- C8 counterexample: the claim says construction succeeds exactly on
`{cpu, memory, gpu}`, but the code rejects `gpu` and accepts
`nvidia.com/gpu`. -/
theorem c8_dimension_set_cex :
    initSucceeds "gpu" = false ∧ initSucceeds "nvidia.com/gpu" = true := by
  constructor <;> rfl

/-- C8 (amended): constructing a `BestfitBinpackPolicy` succeeds exactly
when the configured binpacking dimension is one of `cpu`, `memory`,
`nvidia.com/gpu`; any other value fails immediately at construction
time. -/
theorem c8_dimension_set_amended (binpacking_resource : String) :
    initSucceeds binpacking_resource = true ↔
      binpacking_resource = "cpu" ∨ binpacking_resource = "memory" ∨
        binpacking_resource = "nvidia.com/gpu" := by
  unfold initSucceeds bestfitInit
  by_cases h : binpacking_resource ∈ (["cpu", "memory", "nvidia.com/gpu"] : List String) <;>
    simp_all

/-! ### Correctness lemmas for the best-fit loop -/

theorem findBestFit_cons (requests : List (String × ℚ)) (bd : String) (req : ℚ)
    (best : Option (String × ℚ)) (node : String) (resources : List (String × ℚ))
    (rest : List (String × List (String × ℚ))) :
    findBestFit requests bd req best ((node, resources) :: rest) =
      if feasible resources requests then
        match dictGet resources bd with
        | none => .error ()
        | some avail =>
          if betterFit (avail - req) best then
            findBestFit requests bd req (some (node, avail - req)) rest
          else
            findBestFit requests bd req best rest
      else
        findBestFit requests bd req best rest := rfl

theorem betterFit_true_iff (remaining : ℚ) (best : Option (String × ℚ)) :
    betterFit remaining best = true ↔
      0 ≤ remaining ∧ ∀ b, best = some b → remaining < b.2 := by
  cases best <;> simp [betterFit]

theorem dictGet_mem_keys {α : Type} (m : List (String × α)) (k : String) (v : α)
    (h : dictGet m k = some v) : ∃ kv ∈ m, kv.1 = k := by
  induction m with
  | nil => cases h
  | cons head rest ih =>
    obtain ⟨k', v'⟩ := head
    by_cases hk : k' = k
    · exact ⟨(k', v'), List.mem_cons_self _ _, hk⟩
    · rw [dictGet, if_neg hk] at h
      obtain ⟨kv, hkv, hkvk⟩ := ih h
      exact ⟨kv, List.mem_cons_of_mem _ hkv, hkvk⟩

theorem feasible_key_nonneg (requests resources : List (String × ℚ)) (bd : String) (req : ℚ)
    (hkey : dictGet requests bd = some req)
    (hf : feasible resources requests = true)
    (a : ℚ) (ha : dictGet resources bd = some a) : 0 ≤ a - req := by
  obtain ⟨kv, hkv, hkvk⟩ := dictGet_mem_keys requests bd req hkey
  have hle := (feasible_iff resources requests).mp hf kv hkv
  rw [hkvk, dictGetD, hkey, dictGetD, ha] at hle
  simp only [Option.getD_some] at hle
  linarith

theorem findBestFit_keys (requests : List (String × ℚ)) (bd : String) (req : ℚ) :
    ∀ (l : List (String × List (String × ℚ))) (best : Option (String × ℚ))
      (r : Option (String × ℚ)),
      findBestFit requests bd req best l = .ok r →
      ∀ p ∈ l, feasible p.2 requests = true → (dictGet p.2 bd).isSome := by
  intro l
  induction l with
  | nil => intro best r _ p hp; simp at hp
  | cons head rest ih =>
    intro best r h p hp
    obtain ⟨node, resources⟩ := head
    rw [findBestFit_cons] at h
    by_cases hf : feasible resources requests = true
    · rw [if_pos hf] at h
      cases hg : dictGet resources bd with
      | none =>
        rw [hg] at h
        cases h
      | some avail =>
        rw [hg] at h
        replace h : (if betterFit (avail - req) best then
            findBestFit requests bd req (some (node, avail - req)) rest
          else findBestFit requests bd req best rest) = .ok r := h
        intro hfp
        rcases List.mem_cons.mp hp with rfl | hp'
        · simp [hg]
        · by_cases hb : betterFit (avail - req) best = true
          · rw [if_pos hb] at h
            exact ih (some (node, avail - req)) r h p hp' hfp
          · rw [if_neg hb] at h
            exact ih best r h p hp' hfp
    · rw [if_neg hf] at h
      intro hfp
      rcases List.mem_cons.mp hp with rfl | hp'
      · exact absurd hfp hf
      · exact ih best r h p hp' hfp

theorem findBestFit_of_no_feasible (requests : List (String × ℚ)) (bd : String) (req : ℚ) :
    ∀ (l : List (String × List (String × ℚ))) (best : Option (String × ℚ)),
      (∀ p ∈ l, feasible p.2 requests = false) →
      findBestFit requests bd req best l = .ok best := by
  intro l
  induction l with
  | nil => intro best _; rfl
  | cons head rest ih =>
    intro best hinf
    obtain ⟨node, resources⟩ := head
    rw [findBestFit_cons,
      if_neg (by rw [hinf (node, resources) (List.mem_cons_self _ _)]; simp)]
    exact ih best fun p hp => hinf p (List.mem_cons_of_mem _ hp)

theorem feasible_eq_false_iff (resources requests : List (String × ℚ)) :
    feasible resources requests = false ↔ ¬ Feasible resources requests := by
  rw [← feasible_iff]
  cases feasible resources requests <;> simp

/-- Full characterization of the best-fit loop, by induction on the node
list with a generalized accumulator.  Under the assumption that every
feasible node carries the binpacking key with non-negative remaining
capacity, an `ok` result is either the untouched accumulator (a lower
bound for every feasible node) or the first feasible node attaining the
minimum remaining capacity. -/
theorem findBestFit_spec (requests : List (String × ℚ)) (bd : String) (req : ℚ) :
    ∀ (l : List (String × List (String × ℚ))) (best : Option (String × ℚ))
      (r : Option (String × ℚ)),
      (∀ p ∈ l, feasible p.2 requests = true →
        ∃ a, dictGet p.2 bd = some a ∧ 0 ≤ a - req) →
      findBestFit requests bd req best l = .ok r →
      ((r = none → best = none ∧ ∀ p ∈ l, feasible p.2 requests = false) ∧
       (∀ n ρ, r = some (n, ρ) →
         (best = some (n, ρ) ∧
           ∀ p ∈ l, feasible p.2 requests = true → ρ ≤ remOn bd req p.2) ∨
         (∃ pre res post, l = pre ++ (n, res) :: post ∧
           feasible res requests = true ∧
           ρ = remOn bd req res ∧ 0 ≤ ρ ∧
           (∀ b, best = some b → ρ < b.2) ∧
           (∀ p ∈ pre, feasible p.2 requests = true → ρ < remOn bd req p.2) ∧
           (∀ p ∈ post, feasible p.2 requests = true → ρ ≤ remOn bd req p.2)))) := by
  intro l
  induction l with
  | nil =>
    intro best r _ h
    replace h : (Except.ok best : Except Unit (Option (String × ℚ))) = .ok r := h
    have hbr : best = r := by injection h
    subst hbr
    constructor
    · intro hr
      exact ⟨hr, by simp⟩
    · intro n ρ hr
      exact Or.inl ⟨hr, by simp⟩
  | cons head rest ih =>
    intro best r hgood h
    obtain ⟨node, resources⟩ := head
    rw [findBestFit_cons] at h
    have hgoodrest : ∀ p ∈ rest, feasible p.2 requests = true →
        ∃ a, dictGet p.2 bd = some a ∧ 0 ≤ a - req :=
      fun p hp => hgood p (List.mem_cons_of_mem _ hp)
    by_cases hf : feasible resources requests = true
    · obtain ⟨a, ha, hanneg⟩ := hgood (node, resources) (List.mem_cons_self _ _) hf
      rw [if_pos hf, ha] at h
      replace h : (if betterFit (a - req) best then
          findBestFit requests bd req (some (node, a - req)) rest
        else findBestFit requests bd req best rest) = .ok r := h
      have hrem : remOn bd req resources = a - req := by
        simp [remOn, dictGetD, ha]
      by_cases hb : betterFit (a - req) best = true
      · rw [if_pos hb] at h
        rw [betterFit_true_iff] at hb
        obtain ⟨hnone, hsome⟩ := ih (some (node, a - req)) r hgoodrest h
        constructor
        · intro hr
          exact absurd (hnone hr).1 (by simp)
        · intro n ρ hr
          rcases hsome n ρ hr with ⟨hbest, hall⟩ |
            ⟨pre, res, post, hsplit, hfres, hρ, hρ0, hlt, hpre, hpost⟩
          · -- the head became the accumulator and survived to the end
            right
            have hpair := Option.some.inj hbest
            have hn : node = n := congrArg Prod.fst hpair
            have hρval : ρ = a - req := (congrArg Prod.snd hpair).symm
            subst hn
            refine ⟨[], resources, rest, by simp, hf, by rw [hrem, hρval], ?_, ?_, by simp, ?_⟩
            · rw [hρval]; exact hanneg
            · intro b hbeq
              rw [hρval]
              exact hb.2 b hbeq
            · intro p hp hfp
              exact hall p hp hfp
          · -- the winner lies in the tail
            right
            have hlt' : ρ < a - req := hlt (node, a - req) rfl
            refine ⟨(node, resources) :: pre, res, post, by rw [hsplit]; rfl,
              hfres, hρ, hρ0, ?_, ?_, hpost⟩
            · intro b hbeq
              exact lt_trans hlt' (hb.2 b hbeq)
            · intro p hp hfp
              rcases List.mem_cons.mp hp with rfl | hp'
              · rw [hrem]; exact hlt'
              · exact hpre p hp' hfp
      · rw [if_neg hb] at h
        rw [betterFit_true_iff] at hb
        push_neg at hb
        obtain ⟨hnone, hsome⟩ := ih best r hgoodrest h
        constructor
        · intro hr
          obtain ⟨hbnone, hrest⟩ := hnone hr
          exfalso
          obtain ⟨b, hbeq, -⟩ := hb hanneg
          rw [hbnone] at hbeq
          cases hbeq
        · intro n ρ hr
          obtain ⟨b, hbeq, hble⟩ := hb hanneg
          rcases hsome n ρ hr with ⟨hbest, hall⟩ |
            ⟨pre, res, post, hsplit, hfres, hρ, hρ0, hlt, hpre, hpost⟩
          · left
            refine ⟨hbest, ?_⟩
            intro p hp hfp
            rcases List.mem_cons.mp hp with rfl | hp'
            · rw [hrem]
              have hbρ : b = (n, ρ) := by
                rw [hbest] at hbeq; exact (Option.some.inj hbeq).symm
              rw [hbρ] at hble
              exact hble
            · exact hall p hp' hfp
          · right
            refine ⟨(node, resources) :: pre, res, post, by rw [hsplit]; rfl,
              hfres, hρ, hρ0, hlt, ?_, hpost⟩
            intro p hp hfp
            rcases List.mem_cons.mp hp with rfl | hp'
            · rw [hrem]
              exact lt_of_lt_of_le (hlt b hbeq) hble
            · exact hpre p hp' hfp
    · rw [if_neg hf] at h
      obtain ⟨hnone, hsome⟩ := ih best r hgoodrest h
      constructor
      · intro hr
        obtain ⟨hbnone, hrest⟩ := hnone hr
        refine ⟨hbnone, ?_⟩
        intro p hp
        rcases List.mem_cons.mp hp with rfl | hp'
        · exact Bool.not_eq_true _ ▸ (by simpa using hf)
        · exact hrest p hp'
      · intro n ρ hr
        rcases hsome n ρ hr with ⟨hbest, hall⟩ |
          ⟨pre, res, post, hsplit, hfres, hρ, hρ0, hlt, hpre, hpost⟩
        · left
          refine ⟨hbest, ?_⟩
          intro p hp hfp
          rcases List.mem_cons.mp hp with rfl | hp'
          · exact absurd hfp hf
          · exact hall p hp' hfp
        · right
          refine ⟨(node, resources) :: pre, res, post, by rw [hsplit]; rfl,
            hfres, hρ, hρ0, hlt, ?_, hpost⟩
          intro p hp hfp
          rcases List.mem_cons.mp hp with rfl | hp'
          · exact absurd hfp hf
          · exact hpre p hp' hfp

theorem runCore_eq_ok (requests : List (String × ℚ)) (bd : String) (req : ℚ)
    (cs : List (String × List (String × ℚ))) (node : String) :
    runCore requests bd req cs = .ok node ↔
      ∃ ρ, findBestFit requests bd req none cs = .ok (some (node, ρ)) := by
  unfold runCore
  cases hf : findBestFit requests bd req none cs with
  | error e => simp
  | ok r =>
    cases r with
    | none => simp
    | some b =>
      obtain ⟨n, ρ⟩ := b
      simp [eq_comm]

theorem runCore_eq_noNodeFits (requests : List (String × ℚ)) (bd : String) (req : ℚ)
    (cs : List (String × List (String × ℚ))) :
    runCore requests bd req cs = .noNodeFits ↔
      findBestFit requests bd req none cs = .ok none := by
  unfold runCore
  cases hf : findBestFit requests bd req none cs with
  | error e => simp
  | ok r =>
    cases r with
    | none => simp
    | some b =>
      obtain ⟨n, ρ⟩ := b
      simp

theorem good_of_ok (requests : List (String × ℚ)) (bd : String) (req : ℚ)
    (cs : List (String × List (String × ℚ))) (r : Option (String × ℚ))
    (hkey : dictGet requests bd = some req)
    (h : findBestFit requests bd req none cs = .ok r) :
    ∀ p ∈ cs, feasible p.2 requests = true →
      ∃ a, dictGet p.2 bd = some a ∧ 0 ≤ a - req := by
  intro p hp hf
  have hk := findBestFit_keys requests bd req cs none r h p hp hf
  obtain ⟨a, ha⟩ := Option.isSome_iff_exists.mp hk
  exact ⟨a, ha, feasible_key_nonneg requests p.2 bd req hkey hf a ha⟩

theorem runCore_ok_spec (requests : List (String × ℚ)) (bd : String) (req : ℚ)
    (cs : List (String × List (String × ℚ))) (node : String)
    (hkey : dictGet requests bd = some req)
    (h : runCore requests bd req cs = .ok node) :
    ∃ res pre post, cs = pre ++ (node, res) :: post ∧
      Feasible res requests ∧ 0 ≤ remOn bd req res ∧
      (∀ p ∈ pre, Feasible p.2 requests → remOn bd req res < remOn bd req p.2) ∧
      (∀ p ∈ post, Feasible p.2 requests → remOn bd req res ≤ remOn bd req p.2) := by
  obtain ⟨ρ, hfind⟩ := (runCore_eq_ok requests bd req cs node).mp h
  have hgood := good_of_ok requests bd req cs (some (node, ρ)) hkey hfind
  obtain ⟨-, hsome⟩ := findBestFit_spec requests bd req cs none (some (node, ρ)) hgood hfind
  rcases hsome node ρ rfl with ⟨hbest, -⟩ |
    ⟨pre, res, post, hsplit, hfres, hρ, hρ0, -, hpre, hpost⟩
  · cases hbest
  · refine ⟨res, pre, post, hsplit, (feasible_iff _ _).mp hfres, by rw [← hρ]; exact hρ0,
      ?_, ?_⟩
    · intro p hp hfp
      rw [← hρ]
      exact hpre p hp ((feasible_iff _ _).mpr hfp)
    · intro p hp hfp
      rw [← hρ]
      exact hpost p hp ((feasible_iff _ _).mpr hfp)

theorem get_allocation_ok_effectiveReq (bd : String)
    (cs : List (String × List (String × ℚ))) (requests : List (String × ℚ)) (node : String)
    (h : get_allocation bd cs requests = .ok node) :
    requests ≠ [] ∧ ∃ req, effectiveReq bd requests = some req := by
  by_cases hne : requests = []
  · unfold get_allocation at h
    rw [if_pos hne] at h
    cases h
  refine ⟨hne, ?_⟩
  cases hbd : dictGet requests bd with
  | some r => exact ⟨r, by simp [effectiveReq, hbd]⟩
  | none =>
    cases hcpu : dictGet requests "cpu" with
    | some r => exact ⟨r, by simp [effectiveReq, hbd, hcpu]⟩
    | none =>
      unfold get_allocation at h
      rw [if_neg hne, hbd, hcpu] at h
      exact absurd h (by exact fun hh => PolicyResult.noConfusion hh)

theorem get_allocation_eq_runCore (bd : String)
    (cs : List (String × List (String × ℚ))) (requests : List (String × ℚ)) (req : ℚ)
    (hr : effectiveReq bd requests = some req) (hne : requests ≠ []) :
    get_allocation bd cs requests = runCore requests (effectiveDim bd requests) req cs ∧
    dictGet requests (effectiveDim bd requests) = some req := by
  cases hbd : dictGet requests bd with
  | some r =>
    have hreq : r = req := by
      simp [effectiveReq, hbd] at hr
      exact hr
    subst hreq
    constructor
    · unfold get_allocation
      rw [if_neg hne, hbd]
      unfold effectiveDim
      rw [hbd]
    · unfold effectiveDim
      rw [hbd]
      exact hbd
  | none =>
    have hcpu : dictGet requests "cpu" = some req := by
      simpa [effectiveReq, hbd] using hr
    constructor
    · unfold get_allocation
      rw [if_neg hne, hbd, hcpu]
      unfold effectiveDim
      rw [hbd]
    · unfold effectiveDim
      rw [hbd]
      exact hcpu

/-- C1: whenever `BestfitBinpackPolicy.get_allocation` returns a node name
for a pod with a non-empty requests map, the snapshot splits as
`pre ++ returned :: post` where the returned node satisfies the
feasibility invariant, its remaining capacity on the (possibly
fallen-back) binpacking dimension is non-negative, every feasible node
strictly before it has strictly larger remaining capacity (ties go to the
first in iteration order), and every feasible node after it has remaining
capacity at least as large (minimality). -/
theorem c1_bestfit_feasible_min (bd : String)
    (cs : List (String × List (String × ℚ))) (requests : List (String × ℚ)) (node : String)
    (h : get_allocation bd cs requests = .ok node) :
    ∃ req res pre post,
      effectiveReq bd requests = some req ∧
      cs = pre ++ (node, res) :: post ∧
      Feasible res requests ∧
      0 ≤ remOn (effectiveDim bd requests) req res ∧
      (∀ p ∈ pre, Feasible p.2 requests →
        remOn (effectiveDim bd requests) req res < remOn (effectiveDim bd requests) req p.2) ∧
      (∀ p ∈ post, Feasible p.2 requests →
        remOn (effectiveDim bd requests) req res ≤ remOn (effectiveDim bd requests) req p.2) := by
  obtain ⟨hne, req, hr⟩ := get_allocation_ok_effectiveReq bd cs requests node h
  obtain ⟨hga, hkey⟩ := get_allocation_eq_runCore bd cs requests req hr hne
  rw [hga] at h
  obtain ⟨res, pre, post, hsplit, hfeas, hnn, hpre, hpost⟩ :=
    runCore_ok_spec requests (effectiveDim bd requests) req cs node hkey h
  exact ⟨req, res, pre, post, hr, hsplit, hfeas, hnn, hpre, hpost⟩

/-- Witness for C1: the spec's scenario A — nodes with cpu 3, 2.5, 2.6 and
a pod requesting cpu 2 — where `node2` is returned. -/
theorem c1_bestfit_feasible_min_witness :
    get_allocation "cpu"
      [("node1", [("cpu", 3)]), ("node2", [("cpu", (5 : ℚ)/2)]), ("node3", [("cpu", (13 : ℚ)/5)])]
      [("cpu", 2)] = .ok "node2" ∧
    (∃ req res pre post,
      effectiveReq "cpu" [("cpu", (2 : ℚ))] = some req ∧
      ([("node1", [("cpu", 3)]), ("node2", [("cpu", (5 : ℚ)/2)]), ("node3", [("cpu", (13 : ℚ)/5)])] :
        List (String × List (String × ℚ))) = pre ++ ("node2", res) :: post ∧
      Feasible res [("cpu", 2)] ∧
      0 ≤ remOn (effectiveDim "cpu" [("cpu", 2)]) req res ∧
      (∀ p ∈ pre, Feasible p.2 [("cpu", 2)] →
        remOn (effectiveDim "cpu" [("cpu", 2)]) req res <
          remOn (effectiveDim "cpu" [("cpu", 2)]) req p.2) ∧
      (∀ p ∈ post, Feasible p.2 [("cpu", 2)] →
        remOn (effectiveDim "cpu" [("cpu", 2)]) req res ≤
          remOn (effectiveDim "cpu" [("cpu", 2)]) req p.2)) := by
  have h : get_allocation "cpu"
      [("node1", [("cpu", 3)]), ("node2", [("cpu", (5 : ℚ)/2)]), ("node3", [("cpu", (13 : ℚ)/5)])]
      [("cpu", 2)] = .ok "node2" := by
    norm_num [get_allocation, runCore, findBestFit, feasible, betterFit, dictGet, dictGetD]
  exact ⟨h, c1_bestfit_feasible_min "cpu" _ _ "node2" h⟩

/-- C4: for a pod with a usable request on the (possibly fallen-back)
binpacking dimension, `get_allocation` fails with the no-node-fits
condition exactly when no node of the snapshot is feasible, and that
condition is distinct from the missing-CPU-request condition. -/
theorem c4_no_node_fits_iff (bd : String)
    (cs : List (String × List (String × ℚ))) (requests : List (String × ℚ)) (req : ℚ)
    (hr : effectiveReq bd requests = some req) :
    (get_allocation bd cs requests = .noNodeFits ↔ ∀ p ∈ cs, ¬ Feasible p.2 requests) ∧
    (PolicyResult.noNodeFits ≠ PolicyResult.missingCpuRequest) := by
  refine ⟨?_, by simp⟩
  have hne : requests ≠ [] := by
    intro hemp
    rw [hemp] at hr
    simp [effectiveReq, dictGet] at hr
  obtain ⟨hga, hkey⟩ := get_allocation_eq_runCore bd cs requests req hr hne
  rw [hga, runCore_eq_noNodeFits]
  constructor
  · intro hfind p hp hfp
    have hgood := good_of_ok requests (effectiveDim bd requests) req cs none hkey hfind
    obtain ⟨hnone, -⟩ :=
      findBestFit_spec requests (effectiveDim bd requests) req cs none none hgood hfind
    have hfalse := (hnone rfl).2 p hp
    rw [feasible_eq_false_iff] at hfalse
    exact hfalse hfp
  · intro hinfeas
    apply findBestFit_of_no_feasible
    intro p hp
    rw [feasible_eq_false_iff]
    exact hinfeas p hp

/-- Witness for C4: the spec's scenario B — every node has cpu 1, the pod
requests cpu 2 — where no node is feasible and the call fails with the
no-node-fits condition. -/
theorem c4_no_node_fits_iff_witness :
    effectiveReq "cpu" [("cpu", (2 : ℚ))] = some 2 ∧
    ((get_allocation "cpu" [("n1", [("cpu", 1)]), ("n2", [("cpu", 1)])] [("cpu", 2)] =
        .noNodeFits ↔
      ∀ p ∈ ([("n1", [("cpu", 1)]), ("n2", [("cpu", 1)])] :
        List (String × List (String × ℚ))), ¬ Feasible p.2 [("cpu", 2)]) ∧
     (PolicyResult.noNodeFits ≠ PolicyResult.missingCpuRequest)) := by
  have hr : effectiveReq "cpu" [("cpu", (2 : ℚ))] = some 2 := by
    simp [effectiveReq, dictGet]
  exact ⟨hr, c4_no_node_fits_iff "cpu" _ _ 2 hr⟩

/-! ## SchedulerCore admission loop (scheduler.py, `ChakraScheduler.run`) -/

/-- The fields of a watch event consulted by the run loop (scheduler.py
line 219): the pod's phase, assigned node, requested scheduler name, and
a name to identify the pod. -/
structure SchedEvent where
  podName : String
  phase : String
  nodeName : Option String
  schedulerName : String
deriving DecidableEq, Repr

/-- The eligibility test of scheduler.py line 219:
`phase == 'Pending' and node_name == None and scheduler_name == self.scheduler_name`. -/
def eligible (selfName : String) (e : SchedEvent) : Bool :=
  decide (e.phase = "Pending") && decide (e.nodeName = none) &&
    decide (e.schedulerName = selfName)

/-- What one `process_event` call does with a popped event
(scheduler.py lines 179-199): returns the event for re-queueing when the
policy raised, returns `None` when the attempt completed (bound, benign
quirk suppressed, or API exception logged), or lets an exception escape
(the re-raised `ValueError` from the bind), which would crash `run`. -/
inductive EventOutcome where
  | requeued
  | completed
  | crashed (msg : String)
deriving DecidableEq, Repr

/-- The unconditional `waiting_objects.append(new_event)` of
scheduler.py line 214. -/
def enqueue (queue : List SchedEvent) (e : SchedEvent) : List SchedEvent :=
  queue ++ [e]

/-- Modelled from the spec for comparison with `enqueue`: "Each received
event is appended to the WaitQueue only if eligible". -/
def enqueueSpec (selfName : String) (queue : List SchedEvent) (e : SchedEvent) :
    List SchedEvent :=
  if eligible selfName e then queue ++ [e] else queue

/-- The drain loop of scheduler.py lines 217-227: pop `budget` times;
each eligible popped event is processed (re-appended to the tail when the
policy failed), ineligible popped events are logged and dropped.  Returns
the final queue and the trace of popped events; `Except.error` models an
exception escaping the loop (the first component for the impossible
`popleft` on an empty deque, never reached because the budget equals the
queue length). -/
def drainPass (selfName : String) (outcome : SchedEvent → EventOutcome) :
    ℕ → List SchedEvent → List SchedEvent →
      Except String (List SchedEvent × List SchedEvent)
  | 0, queue, popped => .ok (queue, popped)
  | _ + 1, [], _ => .error "IndexError"
  | n + 1, e :: queue, popped =>
    if eligible selfName e then
      match outcome e with
      | .requeued => drainPass selfName outcome n (queue ++ [e]) (popped ++ [e])
      | .completed => drainPass selfName outcome n queue (popped ++ [e])
      | .crashed msg => .error msg
    else
      drainPass selfName outcome n queue (popped ++ [e])

/-- One iteration of the `for new_event in w.stream(...)` body
(scheduler.py lines 212-227): append the new event, snapshot the length,
then run the drain loop that many times. -/
def runIteration (selfName : String) (outcome : SchedEvent → EventOutcome)
    (queue : List SchedEvent) (newEvent : SchedEvent) :
    Except String (List SchedEvent × List SchedEvent) :=
  let q := enqueue queue newEvent
  drainPass selfName outcome q.length q []

/-- The events of a list that survive one processing round: eligible and
returned by `process_event` for re-queueing. -/
def passResidue (selfName : String) (outcome : SchedEvent → EventOutcome)
    (q : List SchedEvent) : List SchedEvent :=
  q.filter fun e => eligible selfName e && decide (outcome e = .requeued)

theorem drainPass_spec (selfName : String) (outcome : SchedEvent → EventOutcome) :
    ∀ (q rest popped : List SchedEvent),
      (∀ x ∈ q, eligible selfName x = true → ∀ m, outcome x ≠ .crashed m) →
      drainPass selfName outcome q.length (q ++ rest) popped =
        .ok (rest ++ passResidue selfName outcome q, popped ++ q) := by
  intro q
  induction q with
  | nil =>
    intro rest popped _
    simp [drainPass, passResidue]
  | cons e q' ih =>
    intro rest popped hsafe
    have hsafe' : ∀ x ∈ q', eligible selfName x = true → ∀ m, outcome x ≠ .crashed m :=
      fun x hx => hsafe x (List.mem_cons_of_mem _ hx)
    show drainPass selfName outcome (q'.length + 1) (e :: (q' ++ rest)) popped = _
    rw [drainPass]
    by_cases he : eligible selfName e = true
    · rw [if_pos he]
      cases ho : outcome e with
      | requeued =>
        have hih := ih (rest ++ [e]) (popped ++ [e]) hsafe'
        rw [← List.append_assoc] at hih
        show drainPass selfName outcome q'.length (q' ++ rest ++ [e]) (popped ++ [e]) = _
        rw [hih]
        simp [passResidue, List.filter_cons, he, ho]
      | completed =>
        have hih := ih rest (popped ++ [e]) hsafe'
        show drainPass selfName outcome q'.length (q' ++ rest) (popped ++ [e]) = _
        rw [hih]
        simp [passResidue, List.filter_cons, he, ho]
      | crashed msg =>
        exact ((hsafe e (List.mem_cons_self _ _) he msg) ho).elim
    · rw [if_neg he]
      have := ih rest (popped ++ [e]) hsafe'
      rw [this]
      have he' : eligible selfName e = false := by
        cases h : eligible selfName e
        · rfl
        · exact absurd h he
      simp [passResidue, List.filter_cons, he']

/-- C5 counterexample: an event with phase `Running` is ineligible, yet
line 214 appends it to the WaitQueue unconditionally, so it does enter
the queue, contradicting the claim's "appended only if eligible / never
enters the queue" (the spec-faithful conditional append would leave the
queue unchanged). -/
theorem c5_ineligible_enters_queue_cex :
    eligible "chakra" ⟨"p1", "Running", none, "chakra"⟩ = false ∧
    (⟨"p1", "Running", none, "chakra"⟩ : SchedEvent) ∈
      enqueue [] ⟨"p1", "Running", none, "chakra"⟩ ∧
    enqueue [] ⟨"p1", "Running", none, "chakra"⟩ ≠
      enqueueSpec "chakra" [] ⟨"p1", "Running", none, "chakra"⟩ := by
  refine ⟨by rfl, by simp [enqueue], ?_⟩
  simp [enqueue, enqueueSpec, eligible]

/-- C5 (amended): every received event is appended to the WaitQueue, but
an ineligible event is discarded when the triggered drain pass pops it:
its outcome is never consulted, it is never re-enqueued, and the pass
leaves exactly the queue that processing the pre-existing entries alone
would leave, so no ineligible event survives the pass it arrived in. -/
theorem c5_ineligible_discarded_amended (selfName : String)
    (outcome : SchedEvent → EventOutcome) (queue : List SchedEvent)
    (newEvent : SchedEvent)
    (hinel : eligible selfName newEvent = false)
    (hsafe : ∀ x ∈ queue, eligible selfName x = true → ∀ m, outcome x ≠ .crashed m) :
    runIteration selfName outcome queue newEvent =
      .ok (passResidue selfName outcome queue, queue ++ [newEvent]) := by
  have hsafe' : ∀ x ∈ queue ++ [newEvent], eligible selfName x = true →
      ∀ m, outcome x ≠ .crashed m := by
    intro x hx
    rcases List.mem_append.mp hx with hx' | hx'
    · exact hsafe x hx'
    · intro helig
      rw [List.mem_singleton.mp hx'] at helig
      rw [helig] at hinel
      cases hinel
  have h := drainPass_spec selfName outcome (queue ++ [newEvent]) [] [] hsafe'
  rw [List.append_nil] at h
  unfold runIteration enqueue
  rw [h]
  simp [passResidue, List.filter_append, hinel]

/-- Witness for C5 (amended) at a concrete ineligible event. -/
theorem c5_ineligible_discarded_amended_witness :
    eligible "chakra" ⟨"p2", "Succeeded", none, "chakra"⟩ = false ∧
    runIteration "chakra" (fun _ => EventOutcome.completed) []
        ⟨"p2", "Succeeded", none, "chakra"⟩ =
      .ok (passResidue "chakra" (fun _ => EventOutcome.completed) [],
        [] ++ [⟨"p2", "Succeeded", none, "chakra"⟩]) := by
  refine ⟨by rfl, ?_⟩
  exact c5_ineligible_discarded_amended "chakra" (fun _ => EventOutcome.completed) []
    ⟨"p2", "Succeeded", none, "chakra"⟩ (by rfl) (by intro x hx; cases hx)

/-- C6 counterexample: with the WaitQueue holding N = 0 entries at the
moment an eligible event is received, the triggered pass pops and
processes 1 entry (the newly appended event), not N = 0 — the length is
snapshotted after the unconditional append, so the popped trace has
length N + 1. -/
theorem c6_pass_count_cex :
    runIteration "chakra" (fun _ => EventOutcome.completed) []
        ⟨"p3", "Pending", none, "chakra"⟩ =
      .ok ([], [⟨"p3", "Pending", none, "chakra"⟩]) ∧
    ([(⟨"p3", "Pending", none, "chakra"⟩ : SchedEvent)].length = 1 ∧
      ([] : List SchedEvent).length = 0 ∧ (1 : ℕ) ≠ 0) := by
  constructor
  · rfl
  · exact ⟨rfl, rfl, by simp⟩

/-- C6 (amended): when a new event arrives with N entries queued, the
drain pass pops and processes exactly the N + 1 entries present after the
unconditional append (the length is snapshotted after appending, before
popping), in FIFO order, each exactly once; every entry appended during
the pass — the re-enqueued failures — is deferred to a later pass, ending
up at the tail of the final queue in order. -/
theorem c6_drain_pass_amended (selfName : String)
    (outcome : SchedEvent → EventOutcome) (queue : List SchedEvent)
    (newEvent : SchedEvent)
    (hsafe : ∀ x ∈ queue ++ [newEvent], eligible selfName x = true →
      ∀ m, outcome x ≠ .crashed m) :
    runIteration selfName outcome queue newEvent =
      .ok (passResidue selfName outcome (queue ++ [newEvent]), queue ++ [newEvent]) := by
  have h := drainPass_spec selfName outcome (queue ++ [newEvent]) [] [] hsafe
  rw [List.append_nil] at h
  unfold runIteration enqueue
  rw [h]
  simp

/-- Witness for C6 (amended): one queued failing event plus one new
eligible failing event — both are popped, both fail, both are re-queued
in order. -/
theorem c6_drain_pass_amended_witness :
    runIteration "chakra" (fun _ => EventOutcome.requeued)
        [⟨"p4", "Pending", none, "chakra"⟩] ⟨"p5", "Pending", none, "chakra"⟩ =
      .ok (passResidue "chakra" (fun _ => EventOutcome.requeued)
          ([⟨"p4", "Pending", none, "chakra"⟩] ++ [⟨"p5", "Pending", none, "chakra"⟩]),
        [⟨"p4", "Pending", none, "chakra"⟩] ++ [⟨"p5", "Pending", none, "chakra"⟩]) := by
  exact c6_drain_pass_amended "chakra" (fun _ => EventOutcome.requeued)
    [⟨"p4", "Pending", none, "chakra"⟩] ⟨"p5", "Pending", none, "chakra"⟩
    (by intro x hx helig m; simp)

/-! ## Binding operation (scheduler.py, `ChakraScheduler.scheduler` /
`process_event`) -/

/-- The exact error string suppressed on scheduler.py line 173. -/
def targetNoneMsg : String := "Invalid value for `target`, must not be `None`"

/-- Outcome of the external `create_namespaced_binding` call
(scheduler.py line 171): a normal result, a raised `ValueError`, or a
raised `ApiException`. -/
inductive CallResult where
  | success
  | valueError (msg : String)
  | apiException (msg : String)
deriving DecidableEq, Repr

/-- How `ChakraScheduler.scheduler` terminates: a normal return with its
result, an uncaught re-raised `ValueError`, or the `ApiException`
propagating out (it is not caught there). -/
inductive BindStep where
  | returns (result : Bool)
  | raisesValueError (msg : String)
  | raisesApi (msg : String)
deriving DecidableEq, Repr

/-- `ChakraScheduler.scheduler` (scheduler.py lines 156-177): `result` is
initialized to `False`; a successful call returns the (truthy) API
result; a `ValueError` whose message is exactly `targetNoneMsg` is
suppressed and the method returns the initial `False` normally; any other
`ValueError` is re-raised; an `ApiException` propagates. -/
def bindAttempt : CallResult → BindStep
  | .success => .returns true
  | .valueError msg =>
    if msg = targetNoneMsg then .returns false else .raisesValueError msg
  | .apiException msg => .raisesApi msg

/-- `ChakraScheduler.process_event` (scheduler.py lines 179-199) given
the policy's result and the outcome of the binding call: a policy
exception returns the event for re-queueing; after a successful policy
call the bind is attempted, with `ApiException` caught and logged (normal
completion, attempt unconfirmed) and a re-raised `ValueError` escaping
and crashing the caller. -/
def process_event (policyRes : PolicyResult) (callRes : CallResult) : EventOutcome :=
  match policyRes with
  | .ok _ =>
    match bindAttempt callRes with
    | .returns _ => .completed
    | .raisesApi _ => .completed
    | .raisesValueError m => .crashed m
  | _ => .requeued

/-- C9: the one specific value-validation error string from the client
library is treated as success (the bind attempt returns normally), any
other `ValueError` is re-raised, and every `ApiException` is caught and
logged so the scheduling loop completes the attempt without crashing
(the attempt is simply not confirmed, the event is not re-queued). -/
theorem c9_bind_error_handling :
    bindAttempt (.valueError targetNoneMsg) = .returns false ∧
    (∀ msg : String, msg ≠ targetNoneMsg →
      bindAttempt (.valueError msg) = .raisesValueError msg) ∧
    (∀ node msg, process_event (.ok node) (.apiException msg) = .completed ∧
      process_event (.ok node) (.apiException msg) ≠ .crashed msg) := by
  refine ⟨by simp [bindAttempt], fun msg hmsg => by simp [bindAttempt, hmsg], ?_⟩
  intro node msg
  constructor
  · rfl
  · simp [process_event, bindAttempt]

/-- Witness for C9 at the concrete message `"boom"`. -/
theorem c9_bind_error_handling_witness :
    ("boom" ≠ targetNoneMsg) ∧
    bindAttempt (.valueError "boom") = .raisesValueError "boom" ∧
    process_event (.ok "n1") (.apiException "oops") = .completed := by
  have hne : ("boom" : String) ≠ targetNoneMsg := by simp [targetNoneMsg]
  exact ⟨hne, c9_bind_error_handling.2.1 "boom" hne,
    (c9_bind_error_handling.2.2 "n1" "oops").1⟩

/-! ## ClusterStateUpdater (scheduler.py, `get_cluster_state`) -/

/-- A container, reduced to the `resources.requests` map the updater
reads (quantity strings); the empty list models a falsy (absent or empty)
requests map. -/
structure ContainerInfo where
  requests : List (String × String)
deriving DecidableEq, Repr

/-- The pod fields consulted by `get_cluster_state`
(scheduler.py lines 95-106). -/
structure PodInfo where
  name : String
  nodeName : Option String
  phase : String
  podNamespace : String
  containers : List ContainerInfo
deriving DecidableEq, Repr

/-- The node fields consulted by `get_cluster_state`
(scheduler.py lines 84-89): the allocatable map of quantity strings. -/
structure NodeInfo where
  name : String
  allocatable : List (String × String)
deriving DecidableEq, Repr

/-- Python `int(s)` on the quantity strings of interest: a non-empty
all-digit string; anything else raises (`none`). -/
def parseIntStr (s : String) : Option ℤ :=
  if s.data ≠ [] ∧ s.data.all isDigitChar then some (digitsVal s.data : ℤ)
  else none

/-- One container's contribution to a node's used (cpu, memory, gpu)
totals (scheduler.py lines 98-106): skipped entirely when the requests
map is falsy, otherwise parsed with defaults `'0m'`, `'0Mi'`, `0`. -/
def containerUsage (c : ContainerInfo) : Option (ℚ × ℚ × ℤ) :=
  if c.requests = [] then some (0, 0, 0)
  else do
    let cpu ← parse_resource_cpu ((dictGet c.requests "cpu").getD "0m")
    let mem ← parse_resource_memory ((dictGet c.requests "memory").getD "0Mi")
    let gpu ← (match dictGet c.requests "nvidia.com/gpu" with
      | none => some 0
      | some s => parseIntStr s)
    some (cpu, mem, gpu)

/-- Componentwise sum of (cpu, memory, gpu) usage triples. -/
def addUsage (a b : ℚ × ℚ × ℤ) : ℚ × ℚ × ℤ :=
  (a.1 + b.1, a.2.1 + b.2.1, a.2.2 + b.2.2)

/-- Sum of a pod's containers' usage (the inner loop of
scheduler.py lines 98-106). -/
def podUsage (p : PodInfo) : Option (ℚ × ℚ × ℤ) :=
  p.containers.foldl
    (fun acc c => do
      let a ← acc
      let u ← containerUsage c
      some (addUsage a u))
    (some (0, 0, 0))

/-- The pod filter of scheduler.py line 96: assigned to this node, phase
`Running` or `Pending`, and namespace equal to the literal `'default'`
(note: not the configured namespace). -/
def podCounted (nodeName : String) (p : PodInfo) : Bool :=
  decide (p.nodeName = some nodeName) &&
    (decide (p.phase = "Running") || decide (p.phase = "Pending")) &&
    decide (p.podNamespace = "default")

/-- A node's used totals: sum over the counted pods
(scheduler.py lines 91-106). -/
def nodeUsed (pods : List PodInfo) (nodeName : String) : Option (ℚ × ℚ × ℤ) :=
  (pods.filter (podCounted nodeName)).foldl
    (fun acc p => do
      let a ← acc
      let u ← podUsage p
      some (addUsage a u))
    (some (0, 0, 0))

/-- One node's snapshot entry (scheduler.py lines 84-116): allocatable
cpu/memory are read by direct indexing (a missing key raises), gpu via
`.get('nvidia.com/gpu', 0)`; `available = allocatable - used` on each
dimension with no clamping, published under keys `cpu`, `memory`,
`gpu`. -/
def nodeEntry (pods : List PodInfo) (node : NodeInfo) :
    Option (String × List (String × ℚ)) := do
  let cpuStr ← dictGet node.allocatable "cpu"
  let total_cpu ← parse_resource_cpu cpuStr
  let memStr ← dictGet node.allocatable "memory"
  let total_memory ← parse_resource_memory memStr
  let total_gpu ← (match dictGet node.allocatable "nvidia.com/gpu" with
    | none => some 0
    | some s => parseIntStr s)
  let used ← nodeUsed pods node.name
  some (node.name,
    [("cpu", total_cpu - used.1), ("memory", total_memory - used.2.1),
     ("gpu", ((total_gpu - used.2.2 : ℤ) : ℚ))])

/-- One step of the dict-building loop of `get_cluster_state`. -/
def csStep (pods : List PodInfo) (acc : Option (List (String × List (String × ℚ))))
    (node : NodeInfo) : Option (List (String × List (String × ℚ))) := do
  let st ← acc
  let entry ← nodeEntry pods node
  some (st ++ [entry])

/-- `ClusterStateUpdater.get_cluster_state` (scheduler.py lines 67-117).
`selfNamespace` mirrors the `self.namespace` stored by `__init__`
(lines 32-38); the body never consults it — the pod filter hardcodes
`'default'` — so the parameter is unused exactly as in the source. -/
def get_cluster_state (_selfNamespace : String) (nodes : List NodeInfo)
    (pods : List PodInfo) : Option (List (String × List (String × ℚ))) :=
  nodes.foldl (csStep pods) (some [])

theorem parse_cpu_4 : parse_resource_cpu "4" = some 4 := by
  have hr : findDigitRun "4".data = some ['4'] := by decide
  have hv : digitsVal ['4'] = 4 := by decide
  rw [parse_resource_cpu, hr]
  norm_num [hv]

theorem parse_cpu_2 : parse_resource_cpu "2" = some 2 := by
  have hr : findDigitRun "2".data = some ['2'] := by decide
  have hv : digitsVal ['2'] = 2 := by decide
  rw [parse_resource_cpu, hr]
  norm_num [hv]

theorem parse_cpu_0m : parse_resource_cpu "0m" = some 0 := by
  have hr : findDigitRun "0m".data = some ['0'] := by decide
  have hv : digitsVal ['0'] = 0 := by decide
  rw [parse_resource_cpu, hr]
  norm_num [hv]

theorem parse_mem_4Gi : parse_resource_memory "4Gi" = some 4096 := by
  have hr : findDigitRun "4Gi".data = some ['4'] := by decide
  have hv : digitsVal ['4'] = 4 := by decide
  rw [parse_resource_memory, hr]
  norm_num [hv]
  rw [if_neg (by decide : ¬('G' : Char) = 'K'), if_neg (by decide : ¬('G' : Char) = 'M')]
  norm_num

theorem parse_mem_0Mi : parse_resource_memory "0Mi" = some 0 := by
  have hr : findDigitRun "0Mi".data = some ['0'] := by decide
  have hv : digitsVal ['0'] = 0 := by decide
  rw [parse_resource_memory, hr]
  norm_num [hv]

/-- C7 (the updater's namespace filter, evaluated at the failing input):
with the updater configured for namespace `ns2`, a `Pending` pod assigned
to `n1` in namespace `ns2` requesting cpu 2 is NOT subtracted from the
node's availability (cpu stays 4), while the identical pod in namespace
`default` is (cpu becomes 2) — the code filters on the literal
`'default'`, not on the configured target namespace as the claim
states. -/
theorem c7_namespace_filter_eval :
    get_cluster_state "ns2"
        [⟨"n1", [("cpu", "4"), ("memory", "4Gi")]⟩]
        [⟨"pod-a", some "n1", "Pending", "ns2", [⟨[("cpu", "2")]⟩]⟩] =
      some [("n1", [("cpu", 4), ("memory", 4096), ("gpu", 0)])] ∧
    get_cluster_state "default"
        [⟨"n1", [("cpu", "4"), ("memory", "4Gi")]⟩]
        [⟨"pod-a", some "n1", "Pending", "default", [⟨[("cpu", "2")]⟩]⟩] =
      some [("n1", [("cpu", 2), ("memory", 4096), ("gpu", 0)])] := by
  constructor <;> with_unfolding_all rfl

theorem csStep_foldl_none (pods : List PodInfo) :
    ∀ nodes : List NodeInfo, nodes.foldl (csStep pods) none = none := by
  intro nodes
  induction nodes with
  | nil => rfl
  | cons node rest ih =>
    rw [List.foldl_cons]
    exact ih

theorem nodeEntry_shape (pods : List PodInfo) (node : NodeInfo)
    (entry : String × List (String × ℚ))
    (h : nodeEntry pods node = some entry) :
    entry.2.map Prod.fst = ["cpu", "memory", "gpu"] ∧
    dictGet entry.2 "nvidia.com/gpu" = none := by
  unfold nodeEntry at h
  simp only [Option.bind_eq_some, bind, Option.some.injEq] at h
  obtain ⟨cpuStr, -, tc, -, memStr, -, tm, -, tg, -, used, -, hfin⟩ := h
  rw [← hfin]
  constructor
  · rfl
  · simp [dictGet]

theorem get_cluster_state_mem (pods : List PodInfo) :
    ∀ (nodes : List NodeInfo) (acc st : List (String × List (String × ℚ))),
      nodes.foldl (csStep pods) (some acc) = some st →
      ∀ entry ∈ st, entry ∈ acc ∨ ∃ node, nodeEntry pods node = some entry := by
  intro nodes
  induction nodes with
  | nil =>
    intro acc st h entry he
    left
    have hacc : acc = st := by
      replace h : (some acc : Option (List (String × List (String × ℚ)))) = some st := h
      exact Option.some.inj h
    rw [hacc]
    exact he
  | cons node rest ih =>
    intro acc st h entry he
    rw [List.foldl_cons] at h
    cases hn : nodeEntry pods node with
    | none =>
      have hstep : csStep pods (some acc) node = none := by
        simp [csStep, hn]
      rw [hstep, csStep_foldl_none] at h
      cases h
    | some e2 =>
      have hstep : csStep pods (some acc) node = some (acc ++ [e2]) := by
        simp [csStep, hn]
      rw [hstep] at h
      rcases ih (acc ++ [e2]) st h entry he with hmem | hex
      · rcases List.mem_append.mp hmem with h1 | h1
        · left; exact h1
        · right
          refine ⟨node, ?_⟩
          rw [hn, List.mem_singleton.mp h1]
      · right; exact hex

/-- C10: every snapshot the updater produces maps each node to a resource
map whose key list is exactly `["cpu", "memory", "gpu"]` — in particular
GPU availability is published under `gpu` and a lookup of
`nvidia.com/gpu` (the dimension name the `BestfitBinpackPolicy`
constructor accepts, while rejecting `gpu`) finds nothing in any
entry. -/
theorem c10_snapshot_keys (selfNamespace : String) (nodes : List NodeInfo)
    (pods : List PodInfo) (st : List (String × List (String × ℚ)))
    (h : get_cluster_state selfNamespace nodes pods = some st) :
    (∀ entry ∈ st, entry.2.map Prod.fst = ["cpu", "memory", "gpu"] ∧
      dictGet entry.2 "nvidia.com/gpu" = none) ∧
    initSucceeds "nvidia.com/gpu" = true ∧ initSucceeds "gpu" = false := by
  refine ⟨?_, rfl, rfl⟩
  intro entry he
  rcases get_cluster_state_mem pods nodes [] st h entry he with hmem | ⟨node, hn⟩
  · cases hmem
  · exact nodeEntry_shape pods node entry hn

/-- Witness for C10 on a concrete one-node listing. -/
theorem c10_snapshot_keys_witness :
    get_cluster_state "default" [⟨"n1", [("cpu", "4"), ("memory", "4Gi")]⟩] [] =
      some [("n1", [("cpu", 4), ("memory", 4096), ("gpu", 0)])] ∧
    ((∀ entry ∈ ([("n1", [("cpu", (4 : ℚ)), ("memory", 4096), ("gpu", 0)])] :
        List (String × List (String × ℚ))),
      entry.2.map Prod.fst = ["cpu", "memory", "gpu"] ∧
      dictGet entry.2 "nvidia.com/gpu" = none) ∧
     initSucceeds "nvidia.com/gpu" = true ∧ initSucceeds "gpu" = false) := by
  have h : get_cluster_state "default" [⟨"n1", [("cpu", "4"), ("memory", "4Gi")]⟩] [] =
      some [("n1", [("cpu", 4), ("memory", 4096), ("gpu", 0)])] := by
    with_unfolding_all rfl
  exact ⟨h, c10_snapshot_keys "default" _ _ _ h⟩

end Chakra
